import Mathlib

/-!
Verification development for the BlackHole NASA-imagery gallery.

The repository consists of four page components (Mars rover photos, Home
image search, EPIC Earth feed, APOD), each owning its fetch, loading/error
state and presentation.  This file gives a shallow embedding of the parts
of the code that the specification talks about:

* the stale-response-guarded photo loader of the Mars page (`marsStep`),
* the 500 ms trailing-edge debounce on parameter changes (`debounceRun`),
* the Fisher-Yates `shuffle` used by Mars and Home (randomness is passed
  in explicitly as the sequence of drawn indices),
* the Home page merge step (`mapInsert`/`jsMapOfList`/`dedupByUrl` model
  the JavaScript `Map`-based deduplication by URL),
* the EPIC carousel index arithmetic and `buildEpicUrl` (strings are
  modelled as `String`/`List Char`; JavaScript `%` coincides with `Int`
  `emod` on the non-negative operands that occur here),
* the per-page failure branches (each `catch` block is a total Lean
  function on an explicit `Except`-style result, mirroring that errors
  are absorbed rather than rethrown).

Machine numbers (`id`, indices, `sol`) are small non-negative integers in
the source and are modelled as `Nat` (or `Int` where the JavaScript
expression can be negative before the modulo).
-/

/-- Camera record nested in a Mars photo (`camera: { name: string }`). -/
structure Camera where
  name : String
deriving DecidableEq, Repr

/-- Photo record of the Mars page (`interface Photo`). -/
structure Photo where
  id : Nat
  img_src : String
  camera : Camera
deriving DecidableEq, Repr

/-- Rover union type (`type Rover = keyof CameraMap`). -/
inductive Rover where
  | Curiosity : Rover
  | Opportunity : Rover
  | Spirit : Rover
deriving DecidableEq, Repr

/-- Query parameters of the Mars page (`{ sol, camera, rover }`). -/
structure MarsParams where
  sol : Nat
  camera : String
  rover : Rover
deriving DecidableEq, Repr

/-- Page-local state of the Mars component: the `requestIdRef` counter and
the four `useState` cells used by `loadPhotos`. -/
structure MarsState where
  requestId : Nat
  photos : List Photo
  selected : Option Nat
  err : String
  loading : Bool
deriving DecidableEq, Repr

/-- Outcome of the awaited `fetchPhotos` call: a list, a non-array value
(coerced to `[]` by the `Array.isArray` check), or a thrown error. -/
inductive FetchResult where
  | ok : List Photo → FetchResult
  | nonArray : FetchResult
  | failed : FetchResult
deriving DecidableEq, Repr

/-- Events of the Mars loader: an invocation of `loadPhotos` (everything up
to the `await`), or the resumption of an invocation carrying the tag it
captured at call time together with the network outcome. -/
inductive MarsEvent where
  | invoke : MarsEvent
  | resolve : Nat → FetchResult → MarsEvent
deriving DecidableEq, Repr

/-- Fixed error string of the Mars page. -/
def marsErrMsg : String := "Impossible de récupérer les photos pour ces paramètres."

/-- One step of the Mars loader.  `invoke` mirrors the prefix of
`loadPhotos` before the `await`: it increments `requestIdRef.current`
(the new value is the invocation tag), sets `loading` and clears `err`.
`resolve tag r` mirrors the continuation after the `await`: every branch
(success, catch, finally) first compares `requestIdRef.current` with the
captured `id`, so a stale resumption changes nothing at all. -/
def marsStep (s : MarsState) : MarsEvent → MarsState
  | MarsEvent.invoke =>
      { s with requestId := s.requestId + 1, loading := true, err := "" }
  | MarsEvent.resolve tag r =>
      if tag = s.requestId then
        match r with
        | FetchResult.ok fetched =>
            { s with photos := fetched,
                     selected := if fetched.length = 0 then none else some 0,
                     loading := false }
        | FetchResult.nonArray =>
            { s with photos := [], selected := none, loading := false }
        | FetchResult.failed =>
            { s with err := marsErrMsg, loading := false }
      else s

/-- Run the Mars loader over a list of events. -/
def runMars (s : MarsState) : List MarsEvent → MarsState
  | [] => s
  | e :: evs => runMars (marsStep s e) evs

/-- Sequence-number tags issued along a trace, in order: each `invoke`
issues the freshly incremented counter value. -/
def issuedTags (s : MarsState) : List MarsEvent → List Nat
  | [] => []
  | MarsEvent.invoke :: evs =>
      (s.requestId + 1) :: issuedTags (marsStep s MarsEvent.invoke) evs
  | MarsEvent.resolve tag r :: evs =>
      issuedTags (marsStep s (MarsEvent.resolve tag r)) evs

/-- Derived hero photo of the Mars page
(`selected != null ? photos[selected] : photos[0]`). -/
def currentPhoto (photos : List Photo) (selected : Option Nat) : Option Photo :=
  match selected with
  | some i => photos[i]?
  | none => photos[0]?

/-- Swap of two list positions, used by the Fisher-Yates loop
(`[a[i], a[j]] = [a[j], a[i]]`); the random index drawn in the source is
always in bounds, the guard only makes the function total. -/
def listSwap {α : Type} (l : List α) (i j : Nat) : List α :=
  if h : i < l.length ∧ j < l.length then
    (l.set i (l.get ⟨j, h.2⟩)).set j (l.get ⟨i, h.1⟩)
  else l

/-- Descending Fisher-Yates loop (`for (let i = a.length - 1; i > 0; i--)`):
`rand i` is the index `j = Math.floor(Math.random() * (i + 1))` drawn at
iteration `i`. -/
def fyLoop {α : Type} (rand : Nat → Nat) : Nat → List α → List α
  | 0, a => a
  | k + 1, a => fyLoop rand k (listSwap a (k + 1) (rand (k + 1)))

/-- Fisher-Yates shuffle on a copy of the input (`const a = [...arr]`),
parametrised by the sequence of random draws. -/
def shuffle {α : Type} (rand : Nat → Nat) (arr : List α) : List α :=
  fyLoop rand (arr.length - 1) arr

/-- Trailing-edge debounce of the Mars parameter effect: state is the
pending timer (deadline and the parameters captured by the effect
closure).  A change at time `t` cancels the pending timer (`clearTimeout`
in the effect cleanup) and schedules a new one at `t + 500`; a timer whose
deadline arrives before the next change fires `loadPhotos` with its
captured parameters; after the last change the pending timer fires. -/
def debounceDelay : Nat := 500

/-- Run the debounce over the time-ordered list of parameter changes,
returning the fetches that fire, each as (fire time, parameters). -/
def debounceRun (pending : Option (Nat × MarsParams)) :
    List (Nat × MarsParams) → List (Nat × MarsParams)
  | [] =>
      match pending with
      | none => []
      | some f => [f]
  | (t, p) :: rest =>
      match pending with
      | some (d, q) =>
          if d ≤ t then
            (d, q) :: debounceRun (some (t + debounceDelay, p)) rest
          else
            debounceRun (some (t + debounceDelay, p)) rest
      | none => debounceRun (some (t + debounceDelay, p)) rest

/-- Search-result item of the Home page (`interface HomeData`). -/
structure HomeData where
  title : String
  url : String
deriving DecidableEq, Repr

/-- Nested `data` entry of a raw NASA image-search item. -/
structure ItemData where
  title : Option String
deriving DecidableEq, Repr

/-- Nested `links` entry of a raw NASA image-search item. -/
structure ItemLink where
  href : Option String
deriving DecidableEq, Repr

/-- Raw NASA image-search item (`interface Item`). -/
structure Item where
  data : List ItemData
  links : List ItemLink
deriving DecidableEq, Repr

/-- JavaScript `x || dflt` on an optional string: `undefined` and the empty
string are falsy. -/
def orElseStr (s : Option String) (dflt : String) : String :=
  match s with
  | some t => if t = "" then dflt else t
  | none => dflt

/-- Mapping step of `searchImages`: extract title and first link from each
raw item and keep only the entries with a non-empty URL. -/
def searchImages (items : List Item) : List HomeData :=
  (items.map (fun it =>
    { title := orElseStr (it.data.head?.bind (fun d => d.title)) "Untitled",
      url := orElseStr (it.links.head?.bind (fun l => l.href)) "" })).filter
    (fun x => x.url ≠ "")

/-- JavaScript `Map.prototype.set`: an existing key keeps its original
position but its value is replaced; a fresh key is appended. -/
def mapInsert (m : List (String × HomeData)) (k : String) (v : HomeData) :
    List (String × HomeData) :=
  if m.any (fun kv => kv.1 = k) then
    m.map (fun kv => if kv.1 = k then (k, v) else kv)
  else m ++ [(k, v)]

/-- Insert a list of entries into a JavaScript map, keyed by URL. -/
def insertAll (m : List (String × HomeData)) (l : List HomeData) :
    List (String × HomeData) :=
  l.foldl (fun acc x => mapInsert acc x.url x) m

/-- The map built by `new Map(l.map((x) => [x.url, x]))`. -/
def jsMapOfList (l : List HomeData) : List (String × HomeData) :=
  insertAll [] l

/-- Deduplication by URL of the Home merge step:
`Array.from(new Map(list.map((x) => [x.url, x])).values())`. -/
def dedupByUrl (l : List HomeData) : List HomeData :=
  (jsMapOfList l).map (fun kv => kv.2)

/-- Keys of a JavaScript map, in insertion order. -/
def keysOf (m : List (String × HomeData)) : List String :=
  m.map (fun kv => kv.1)

/-- Specification-side helper: URLs in first-occurrence order, skipping
those already seen. -/
def firstOccKeysAux (seen : List String) : List HomeData → List String
  | [] => []
  | x :: xs =>
      if x.url ∈ seen then firstOccKeysAux seen xs
      else x.url :: firstOccKeysAux (x.url :: seen) xs

/-- Specification-side helper: URLs of a list in first-occurrence order. -/
def firstOccKeys (l : List HomeData) : List String :=
  firstOccKeysAux [] l

/-- Specification-side helper: the last entry of `l` whose URL is `k`. -/
def lastWithUrl (k : String) : List HomeData → Option HomeData
  | [] => none
  | x :: xs =>
      match lastWithUrl k xs with
      | some y => some y
      | none => if x.url = k then some x else none

/-- Association lookup in a JavaScript map model. -/
def lookupKey (k : String) (m : List (String × HomeData)) : Option HomeData :=
  (m.find? (fun kv => kv.1 = k)).map (fun kv => kv.2)

/-- Page-local state of the Home component. -/
structure HomeState where
  data : List HomeData
  searchTerm : String
  loading : Bool
  err : String
deriving DecidableEq, Repr

/-- Fixed error string of the initial random load. -/
def loadRandomErrMsg : String := "Impossible de charger les images pour le moment."

/-- Fixed error string of the surprise-me re-roll. -/
def surpriseMeErrMsg : String := "Impossible de charger un nouveau set d’images."

/-- Fixed error string of the free-text search. -/
def searchErrMsg : String := "Recherche impossible. Réessaie avec un autre mot-clé."

/-- Prefix of the Home fetch operations before the `await`:
`setLoading(true); setErr("")`. -/
def homeInvoke (s : HomeState) : HomeState :=
  { s with loading := true, err := "" }

/-- Merge step shared by `loadRandom` and `surpriseMe`: flatten the
per-topic results, deduplicate by URL, shuffle, keep 15. -/
def mergedOf (rand : Nat → Nat) (results : List (List HomeData)) : List HomeData :=
  (shuffle rand (dedupByUrl results.flatten)).take 15

/-- Continuation of `loadRandom` after `Promise.all` resolves. -/
def loadRandomResolve (rand : Nat → Nat) (s : HomeState)
    (r : Except Unit (List (List HomeData))) : HomeState :=
  match r with
  | Except.ok results => { s with data := mergedOf rand results, loading := false }
  | Except.error _ => { s with err := loadRandomErrMsg, loading := false }

/-- Continuation of `surpriseMe` after `Promise.all` resolves. -/
def surpriseMeResolve (rand : Nat → Nat) (s : HomeState)
    (r : Except Unit (List (List HomeData))) : HomeState :=
  match r with
  | Except.ok results => { s with data := mergedOf rand results, loading := false }
  | Except.error _ => { s with err := surpriseMeErrMsg, loading := false }

/-- JavaScript `String.prototype.trim`: strip whitespace from both ends
(modelled directly on the character list). -/
def jsTrim (s : String) : String :=
  String.mk (((s.data.dropWhile Char.isWhitespace).reverse.dropWhile
    Char.isWhitespace).reverse)

/-- `handleSearchSubmit`: a blank (trim-empty) search term fetches nothing;
otherwise the fetched items are shuffled and truncated to 18 with no
deduplication. -/
def handleSearchSubmitResolve (rand : Nat → Nat) (s : HomeState)
    (r : Except Unit (List HomeData)) : HomeState :=
  if jsTrim s.searchTerm = "" then s
  else
    match r with
    | Except.ok items => { s with data := (shuffle rand items).take 18, loading := false }
    | Except.error _ => { s with err := searchErrMsg, loading := false }

/-- EPIC feed item (`interface EpicPageData`). -/
structure EpicPageData where
  caption : String
  date : String
  image : String
  identifier : String
deriving DecidableEq, Repr

/-- Page-local state of the EPIC component. -/
structure EpicState where
  data : List EpicPageData
  loading : Bool
  error : String
  index : Nat
deriving DecidableEq, Repr

/-- Fixed error string of the EPIC page. -/
def epicErrMsg : String := "Une erreur est survenue lors du chargement des images EPIC."

/-- Prefix of the EPIC `fetchData` before the `await`. -/
def epicInvoke (s : EpicState) : EpicState :=
  { s with loading := true, error := "" }

/-- Success continuation of the EPIC `fetchData`:
`setData(data); setIndex(0)` and `finally setLoading(false)`. -/
def epicResolveOk (s : EpicState) (fetched : List EpicPageData) : EpicState :=
  { s with data := fetched, index := 0, loading := false }

/-- Catch branch of the EPIC `fetchData`. -/
def epicResolveErr (s : EpicState) : EpicState :=
  { s with error := epicErrMsg, loading := false }

/-- Derived current item of the EPIC page
(`hasData = data.length > 0; current = hasData ? data[index] : null`). -/
def epicCurrent (s : EpicState) : Option EpicPageData :=
  if s.data.length > 0 then s.data[s.index]? else none

/-- EPIC previous action (`(i - 1 + data.length) % data.length`). -/
def epicPrevIndex (i n : Int) : Int := (i - 1 + n) % n

/-- EPIC next action (`(i + 1) % data.length`). -/
def epicNextIndex (i n : Int) : Int := (i + 1) % n

/-- Mars lightbox previous action (arrow key and button), guarded on a
non-null selection. -/
def marsPrevSelected (n : Int) (sel : Option Int) : Option Int :=
  sel.map (fun i => (i - 1 + n) % n)

/-- Mars lightbox next action (arrow key and button), guarded on a
non-null selection. -/
def marsNextSelected (n : Int) (sel : Option Int) : Option Int :=
  sel.map (fun i => (i + 1) % n)

/-- Split of a character list on a separator, mirroring
`String.prototype.split` with a one-character separator. -/
def splitOnChar (c : Char) : List Char → List (List Char)
  | [] => [[]]
  | x :: xs =>
      if x = c then [] :: splitOnChar c xs
      else
        match splitOnChar c xs with
        | [] => [[x]]
        | r :: rs => (x :: r) :: rs

/-- Base of the derived EPIC archive URL. -/
def epicUrlBase : List Char := "https://epic.gsfc.nasa.gov/archive/natural/".data

/-- EPIC image-URL builder: take the first ten characters of the date,
split them on the hyphen into `[yyyy, mm, dd]`, and assemble the archive
path (the result is the character list of the produced URL string). -/
def buildEpicUrl (item : EpicPageData) : List Char :=
  let d := item.date.data.take 10
  let parts := splitOnChar ( '-' ) d
  let yyyy := parts.getD 0 []
  let mm := parts.getD 1 []
  let dd := parts.getD 2 []
  epicUrlBase ++ yyyy ++ "/".data ++ mm ++ "/".data ++ dd ++
    "/png/".data ++ item.image.data ++ ".png".data

/-- Media kind of an APOD record. -/
inductive MediaType where
  | image : MediaType
  | video : MediaType
deriving DecidableEq, Repr

/-- APOD record (`interface ApodPageData`). -/
structure ApodPageData where
  copyright : Option String
  date : String
  explanation : String
  hdurl : Option String
  url : String
  title : String
  media_type : MediaType
deriving DecidableEq, Repr

/-- Page-local state of the APOD component. -/
structure ApodState where
  data : Option ApodPageData
  loading : Bool
  error : String
deriving DecidableEq, Repr

/-- Fixed error string of the APOD page. -/
def apodErrMsg : String := "Impossible de charger l’APOD pour le moment."

/-- Prefix of the APOD `fetchData` before the `await`. -/
def apodInvoke (s : ApodState) : ApodState :=
  { s with loading := true, error := "" }

/-- Success continuation of the APOD `fetchData`. -/
def apodResolveOk (s : ApodState) (d : ApodPageData) : ApodState :=
  { s with data := some d, loading := false }

/-- Catch branch of the APOD `fetchData`. -/
def apodResolveErr (s : ApodState) : ApodState :=
  { s with error := apodErrMsg, loading := false }

/-! Helper lemmas about the Mars loader state machine. -/

theorem marsStep_resolve_requestId (s : MarsState) (tag : Nat) (r : FetchResult) :
    (marsStep s (MarsEvent.resolve tag r)).requestId = s.requestId := by
  simp only [marsStep]
  split
  · cases r <;> rfl
  · rfl

theorem marsStep_stale (s : MarsState) (tag : Nat) (r : FetchResult)
    (h : tag ≠ s.requestId) : marsStep s (MarsEvent.resolve tag r) = s := by
  simp only [marsStep, if_neg h]

theorem issuedTags_gt (evs : List MarsEvent) :
    ∀ (s : MarsState), ∀ t ∈ issuedTags s evs, s.requestId < t := by
  induction evs with
  | nil => intro s t ht; simp [issuedTags] at ht
  | cons e evs ih =>
    intro s t ht
    cases e with
    | invoke =>
      rw [issuedTags] at ht
      rcases List.mem_cons.mp ht with h | h
      · omega
      · have := ih _ _ h
        simp only [marsStep] at this
        omega
    | resolve tag r =>
      rw [issuedTags] at ht
      have := ih _ _ ht
      rwa [marsStep_resolve_requestId] at this

theorem issuedTags_chain (evs : List MarsEvent) :
    ∀ s : MarsState, List.Chain' (· < ·) (issuedTags s evs) := by
  induction evs with
  | nil => intro s; simp [issuedTags]
  | cons e evs ih =>
    intro s
    cases e with
    | invoke =>
      rw [issuedTags]
      refine List.chain'_cons'.mpr ⟨?_, ih _⟩
      intro b hb
      have hmem := List.mem_of_mem_head? hb
      have := issuedTags_gt evs _ _ hmem
      simp only [marsStep] at this
      omega
    | resolve tag r =>
      rw [issuedTags]
      exact ih _

theorem runMars_requestId (evs : List MarsEvent) :
    ∀ s : MarsState,
      (runMars s evs).requestId = (issuedTags s evs).getLastD s.requestId := by
  induction evs with
  | nil => intro s; simp [runMars, issuedTags]
  | cons e evs ih =>
    intro s
    cases e with
    | invoke =>
      rw [runMars, issuedTags, List.getLastD_cons, ih]
      rfl
    | resolve tag r =>
      rw [runMars, issuedTags, ih, marsStep_resolve_requestId]

/-- C1: every invocation of the Mars photo loader is tagged with a strictly
increasing sequence number at call time (the tags issued along any event
trace form a strictly increasing list, and the live counter always equals
the latest issued tag), and a resolution whose tag differs from the latest
issued sequence number changes nothing: not the photo list, not the
selected index, not the error string (the whole state is unchanged). -/
theorem loadPhotos_stale_guard (s : MarsState) (evs : List MarsEvent)
    (tag : Nat) (r : FetchResult) (hstale : tag ≠ s.requestId) :
    List.Chain' (· < ·) (issuedTags s evs) ∧
    (runMars s evs).requestId = (issuedTags s evs).getLastD s.requestId ∧
    marsStep s (MarsEvent.resolve tag r) = s :=
  ⟨issuedTags_chain evs s, runMars_requestId evs s, marsStep_stale s tag r hstale⟩

/-- Witness for C1 at a concrete state and trace. -/
theorem loadPhotos_stale_guard_witness :
    (1 : Nat) ≠ (MarsState.mk 2 [] none "" false).requestId ∧
    (List.Chain' (· < ·)
        (issuedTags (MarsState.mk 2 [] none "" false)
          [MarsEvent.invoke, MarsEvent.invoke]) ∧
      (runMars (MarsState.mk 2 [] none "" false)
          [MarsEvent.invoke, MarsEvent.invoke]).requestId =
        (issuedTags (MarsState.mk 2 [] none "" false)
            [MarsEvent.invoke, MarsEvent.invoke]).getLastD
          (MarsState.mk 2 [] none "" false).requestId ∧
      marsStep (MarsState.mk 2 [] none "" false)
          (MarsEvent.resolve 1 FetchResult.failed) =
        MarsState.mk 2 [] none "" false) :=
  ⟨by decide,
   loadPhotos_stale_guard (MarsState.mk 2 [] none "" false)
     [MarsEvent.invoke, MarsEvent.invoke] 1 FetchResult.failed (by decide)⟩

/-- C2: a successful, non-stale fetch replaces the displayed list with the
fetched list and resets the selection to the first item (or to no
selection if the fetched list is empty), whatever the previous index was;
the Mars loader resets `selected`, the EPIC refetch resets `index` to 0,
and the derived current EPIC item becomes the head of the new list. -/
theorem fetch_success_replaces_and_resets (s : MarsState) (list : List Photo)
    (t : EpicState) (fetched : List EpicPageData) :
    (marsStep s (MarsEvent.resolve s.requestId (FetchResult.ok list))).photos = list ∧
    (marsStep s (MarsEvent.resolve s.requestId (FetchResult.ok list))).selected =
      (if list.length = 0 then none else some 0) ∧
    (epicResolveOk t fetched).data = fetched ∧
    (epicResolveOk t fetched).index = 0 ∧
    epicCurrent (epicResolveOk t fetched) = fetched.head? := by
  refine ⟨?_, ?_, rfl, rfl, ?_⟩
  · simp [marsStep]
  · simp [marsStep]
  · cases fetched <;> simp [epicCurrent, epicResolveOk]

/-- C3: on a network failure, every fetch operation of every page catches
the error (the model step is a total function on the failure outcome),
sets that operation's one fixed error message, and leaves the previously
fetched data exactly as it was before the call: the Mars photo list and
selection, the APOD record, the Home search results, and the EPIC list
and index. -/
theorem fetch_failure_fixed_message_preserves_data (s : MarsState)
    (a : ApodState) (h : HomeState) (t : EpicState) (rand : Nat → Nat)
    (hterm : jsTrim h.searchTerm ≠ "") :
    ((marsStep (marsStep s MarsEvent.invoke)
        (MarsEvent.resolve (s.requestId + 1) FetchResult.failed)).photos = s.photos ∧
     (marsStep (marsStep s MarsEvent.invoke)
        (MarsEvent.resolve (s.requestId + 1) FetchResult.failed)).selected = s.selected ∧
     (marsStep (marsStep s MarsEvent.invoke)
        (MarsEvent.resolve (s.requestId + 1) FetchResult.failed)).err = marsErrMsg) ∧
    ((apodResolveErr (apodInvoke a)).data = a.data ∧
     (apodResolveErr (apodInvoke a)).error = apodErrMsg) ∧
    ((loadRandomResolve rand (homeInvoke h) (Except.error ())).data = h.data ∧
     (loadRandomResolve rand (homeInvoke h) (Except.error ())).err = loadRandomErrMsg) ∧
    ((surpriseMeResolve rand (homeInvoke h) (Except.error ())).data = h.data ∧
     (surpriseMeResolve rand (homeInvoke h) (Except.error ())).err = surpriseMeErrMsg) ∧
    ((handleSearchSubmitResolve rand (homeInvoke h) (Except.error ())).data = h.data ∧
     (handleSearchSubmitResolve rand (homeInvoke h) (Except.error ())).err = searchErrMsg) ∧
    ((epicResolveErr (epicInvoke t)).data = t.data ∧
     (epicResolveErr (epicInvoke t)).index = t.index ∧
     (epicResolveErr (epicInvoke t)).error = epicErrMsg) := by
  refine ⟨⟨?_, ?_, ?_⟩, ⟨rfl, rfl⟩, ⟨rfl, rfl⟩, ⟨rfl, rfl⟩, ⟨?_, ?_⟩, rfl, rfl, rfl⟩
  · simp [marsStep]
  · simp [marsStep]
  · simp [marsStep]
  · simp [handleSearchSubmitResolve, homeInvoke, hterm]
  · simp [handleSearchSubmitResolve, homeInvoke, hterm]

/-- Witness for C3 at concrete page states. -/
theorem fetch_failure_fixed_message_witness :
    jsTrim (HomeState.mk [] "q" false "").searchTerm ≠ "" ∧
    (((marsStep (marsStep (MarsState.mk 0 [] none "" false) MarsEvent.invoke)
        (MarsEvent.resolve ((MarsState.mk 0 [] none "" false).requestId + 1)
          FetchResult.failed)).photos = (MarsState.mk 0 [] none "" false).photos ∧
     (marsStep (marsStep (MarsState.mk 0 [] none "" false) MarsEvent.invoke)
        (MarsEvent.resolve ((MarsState.mk 0 [] none "" false).requestId + 1)
          FetchResult.failed)).selected = (MarsState.mk 0 [] none "" false).selected ∧
     (marsStep (marsStep (MarsState.mk 0 [] none "" false) MarsEvent.invoke)
        (MarsEvent.resolve ((MarsState.mk 0 [] none "" false).requestId + 1)
          FetchResult.failed)).err = marsErrMsg) ∧
    ((apodResolveErr (apodInvoke (ApodState.mk none false ""))).data =
        (ApodState.mk none false "").data ∧
     (apodResolveErr (apodInvoke (ApodState.mk none false ""))).error = apodErrMsg) ∧
    ((loadRandomResolve (fun _ => 0) (homeInvoke (HomeState.mk [] "q" false ""))
        (Except.error ())).data = (HomeState.mk [] "q" false "").data ∧
     (loadRandomResolve (fun _ => 0) (homeInvoke (HomeState.mk [] "q" false ""))
        (Except.error ())).err = loadRandomErrMsg) ∧
    ((surpriseMeResolve (fun _ => 0) (homeInvoke (HomeState.mk [] "q" false ""))
        (Except.error ())).data = (HomeState.mk [] "q" false "").data ∧
     (surpriseMeResolve (fun _ => 0) (homeInvoke (HomeState.mk [] "q" false ""))
        (Except.error ())).err = surpriseMeErrMsg) ∧
    ((handleSearchSubmitResolve (fun _ => 0) (homeInvoke (HomeState.mk [] "q" false ""))
        (Except.error ())).data = (HomeState.mk [] "q" false "").data ∧
     (handleSearchSubmitResolve (fun _ => 0) (homeInvoke (HomeState.mk [] "q" false ""))
        (Except.error ())).err = searchErrMsg) ∧
    ((epicResolveErr (epicInvoke (EpicState.mk [] false "" 0))).data =
        (EpicState.mk [] false "" 0).data ∧
     (epicResolveErr (epicInvoke (EpicState.mk [] false "" 0))).index =
        (EpicState.mk [] false "" 0).index ∧
     (epicResolveErr (epicInvoke (EpicState.mk [] false "" 0))).error = epicErrMsg)) :=
  ⟨by decide,
   fetch_failure_fixed_message_preserves_data (MarsState.mk 0 [] none "" false)
     (ApodState.mk none false "") (HomeState.mk [] "q" false "")
     (EpicState.mk [] false "" 0) (fun _ => 0) (by decide)⟩

/-! Helper lemma for the debounce: a pending timer scheduled by a change at
time `t`, followed only by changes arriving within the window, is always
cancelled and rescheduled, and only the final timer fires. -/

theorem debounceRun_pending (rest : List (Nat × MarsParams)) :
    ∀ (t : Nat) (p : MarsParams),
      List.Chain' (fun a b => a.1 ≤ b.1 ∧ b.1 < a.1 + debounceDelay) ((t, p) :: rest) →
      debounceRun (some (t + debounceDelay, p)) rest =
        [((rest.getLastD (t, p)).1 + debounceDelay, (rest.getLastD (t, p)).2)] := by
  induction rest with
  | nil => intro t p _; rfl
  | cons c rest ih =>
    intro t p hch
    obtain ⟨t2, p2⟩ := c
    have h1 : t ≤ t2 ∧ t2 < t + debounceDelay := (List.chain'_cons.mp hch).1
    have h2 := (List.chain'_cons.mp hch).2
    rw [debounceRun]
    rw [if_neg (by omega)]
    rw [List.getLastD_cons]
    exact ih t2 p2 h2

/-- C4: for every finite, time-ordered sequence of changes to the Mars
query parameters in which consecutive changes are separated by less than
500 time units, exactly one fetch fires; it fires 500 time units after the
last change and uses the last settled parameter set (all earlier pending
timers are cancelled before they elapse, so they contribute no fetch). -/
theorem debounce_single_fetch (c : Nat × MarsParams)
    (rest : List (Nat × MarsParams))
    (hch : List.Chain' (fun a b => a.1 ≤ b.1 ∧ b.1 < a.1 + debounceDelay)
      (c :: rest)) :
    debounceRun none (c :: rest) =
      [((rest.getLastD c).1 + debounceDelay, (rest.getLastD c).2)] := by
  obtain ⟨t, p⟩ := c
  rw [debounceRun]
  exact debounceRun_pending rest t p hch

/-- Witness for C4: three rapid changes produce exactly one fetch, 500
units after the last change, with the final parameters. -/
theorem debounce_single_fetch_witness :
    List.Chain' (fun a b => a.1 ≤ b.1 ∧ b.1 < a.1 + debounceDelay)
      [(0, MarsParams.mk 1000 "FHAZ" Rover.Curiosity),
       (300, MarsParams.mk 1000 "RHAZ" Rover.Curiosity),
       (600, MarsParams.mk 950 "RHAZ" Rover.Spirit)] ∧
    debounceRun none
        [(0, MarsParams.mk 1000 "FHAZ" Rover.Curiosity),
         (300, MarsParams.mk 1000 "RHAZ" Rover.Curiosity),
         (600, MarsParams.mk 950 "RHAZ" Rover.Spirit)] =
      [(([(300, MarsParams.mk 1000 "RHAZ" Rover.Curiosity),
          (600, MarsParams.mk 950 "RHAZ" Rover.Spirit)].getLastD
            (0, MarsParams.mk 1000 "FHAZ" Rover.Curiosity)).1 + debounceDelay,
        ([(300, MarsParams.mk 1000 "RHAZ" Rover.Curiosity),
          (600, MarsParams.mk 950 "RHAZ" Rover.Spirit)].getLastD
            (0, MarsParams.mk 1000 "FHAZ" Rover.Curiosity)).2)] :=
  ⟨by norm_num [List.chain'_cons, debounceDelay],
   debounce_single_fetch (0, MarsParams.mk 1000 "FHAZ" Rover.Curiosity)
     [(300, MarsParams.mk 1000 "RHAZ" Rover.Curiosity),
      (600, MarsParams.mk 950 "RHAZ" Rover.Spirit)]
     (by norm_num [List.chain'_cons, debounceDelay])⟩

/-! Helper lemmas for the Fisher-Yates shuffle. -/

theorem listSwap_perm {α : Type} (l : List α) (i j : Nat) :
    (listSwap l i j).Perm l := by
  unfold listSwap
  split
  case isTrue hb =>
    obtain ⟨hi, hj⟩ := hb
    letI : DecidableEq α := Classical.decEq α
    rw [List.perm_iff_count]
    intro b
    have hbi : i < l.length := hi
    have hbj : j < (l.set i (l.get ⟨j, hj⟩)).length := by simpa using hj
    rw [List.count_set (l.get ⟨i, hi⟩) b (l.set i (l.get ⟨j, hj⟩)) j hbj]
    rw [List.count_set (l.get ⟨j, hj⟩) b l i hbi]
    simp only [List.get_eq_getElem, List.getElem_set, ite_self]
    by_cases h1 : l[i] = b <;> by_cases h2 : l[j] = b
    · have hc : 0 < List.count b l := by
        rw [List.count_pos_iff]
        exact h1 ▸ List.getElem_mem hbi
      by_cases hij : i = j <;> simp [h1, h2, hij] <;> omega
    · have hc : 0 < List.count b l := by
        rw [List.count_pos_iff]
        exact h1 ▸ List.getElem_mem hbi
      by_cases hij : i = j
      · subst hij; exact absurd h1 h2
      · simp [h1, h2, hij]; omega
    · by_cases hij : i = j
      · subst hij; exact absurd h2 h1
      · simp [h1, h2, hij]
    · by_cases hij : i = j <;> simp [h1, h2, hij]
  case isFalse hb => exact List.Perm.refl l

theorem fyLoop_perm {α : Type} (rand : Nat → Nat) :
    ∀ (k : Nat) (a : List α), (fyLoop rand k a).Perm a := by
  intro k
  induction k with
  | zero => intro a; exact List.Perm.refl a
  | succ k ih =>
    intro a
    exact (ih (listSwap a (k + 1) (rand (k + 1)))).trans
      (listSwap_perm a (k + 1) (rand (k + 1)))

theorem shuffle_perm {α : Type} (rand : Nat → Nat) (l : List α) :
    (shuffle rand l).Perm l :=
  fyLoop_perm rand (l.length - 1) l

/-- C10: the shuffle returns a permutation of its input, for every input
list and every sequence of random draws: same length and same multiset of
elements, so the Mars Shuffle action and the Home page permutation never
add, drop, or duplicate entries (the input itself is untouched: the
source copies the array and the model is a pure function of it). -/
theorem shuffle_is_permutation (α : Type) (rand : Nat → Nat) (l : List α) :
    (shuffle rand l).Perm l ∧ (shuffle rand l).length = l.length :=
  ⟨shuffle_perm rand l, (shuffle_perm rand l).length_eq⟩

/-- C9: with a fetched list of length 0, the derived current item is none
for every selection-index value, on the Mars page (`currentPhoto`) and on
the EPIC page (`current`), so the pages render their empty state instead
of dereferencing an element of the empty list. -/
theorem empty_list_renders_empty_state :
    (∀ sel : Option Nat, currentPhoto [] sel = none) ∧
    (∀ (loading : Bool) (error : String) (idx : Nat),
      epicCurrent (EpicState.mk [] loading error idx) = none) := by
  constructor
  · intro sel; cases sel <;> rfl
  · intro loading error idx; rfl

/-- C7: carousel navigation is modulo the list length: for a list of
length `n > 0` and a current index `i` in `[0, n)`, the previous action
yields `(i - 1 + n) mod n` and the next action `(i + 1) mod n`; previous
from 0 gives `n - 1`, next from `n - 1` gives 0, and both results stay in
`[0, n)`; the Mars lightbox arrows compute the same values on a non-null
selection. -/
theorem carousel_nav_mod (i n : Int) (hn : 0 < n) (h0 : 0 ≤ i) (hi : i < n) :
    epicPrevIndex i n = (i - 1 + n) % n ∧
    epicNextIndex i n = (i + 1) % n ∧
    epicPrevIndex 0 n = n - 1 ∧
    epicNextIndex (n - 1) n = 0 ∧
    (0 ≤ epicPrevIndex i n ∧ epicPrevIndex i n < n) ∧
    (0 ≤ epicNextIndex i n ∧ epicNextIndex i n < n) ∧
    marsPrevSelected n (some i) = some (epicPrevIndex i n) ∧
    marsNextSelected n (some i) = some (epicNextIndex i n) := by
  refine ⟨rfl, rfl, ?_, ?_, ⟨?_, ?_⟩, ⟨?_, ?_⟩, rfl, rfl⟩
  · show (0 - 1 + n) % n = n - 1
    have he : (0 : Int) - 1 + n = n - 1 := by ring
    rw [he]
    exact Int.emod_eq_of_lt (by omega) (by omega)
  · show (n - 1 + 1) % n = 0
    have he : n - 1 + 1 = n := by ring
    rw [he]
    exact Int.emod_self
  · exact Int.emod_nonneg _ (by omega)
  · exact Int.emod_lt_of_pos _ hn
  · exact Int.emod_nonneg _ (by omega)
  · exact Int.emod_lt_of_pos _ hn

/-- Witness for C7 at `i = 1`, `n = 3`. -/
theorem carousel_nav_mod_witness :
    ((0 : Int) < 3 ∧ (0 : Int) ≤ 1 ∧ (1 : Int) < 3) ∧
    (epicPrevIndex 1 3 = (1 - 1 + 3) % 3 ∧
     epicNextIndex 1 3 = (1 + 1) % 3 ∧
     epicPrevIndex 0 3 = 3 - 1 ∧
     epicNextIndex (3 - 1) 3 = 0 ∧
     (0 ≤ epicPrevIndex 1 3 ∧ epicPrevIndex 1 3 < 3) ∧
     (0 ≤ epicNextIndex 1 3 ∧ epicNextIndex 1 3 < 3) ∧
     marsPrevSelected 3 (some 1) = some (epicPrevIndex 1 3) ∧
     marsNextSelected 3 (some 1) = some (epicNextIndex 1 3)) :=
  ⟨⟨by decide, by decide, by decide⟩,
   carousel_nav_mod 1 3 (by decide) (by decide) (by decide)⟩

/-! Helper lemmas about splitting on the hyphen. -/

theorem splitOnChar_of_not_mem (c : Char) (a : List Char) (h : c ∉ a) :
    splitOnChar c a = [a] := by
  induction a with
  | nil => rfl
  | cons x xs ih =>
    have hx : ¬ x = c := fun he => h (he ▸ List.mem_cons_self x xs)
    have hxs : c ∉ xs := fun hm => h (List.mem_cons_of_mem x hm)
    rw [splitOnChar, if_neg hx, ih hxs]

theorem splitOnChar_append (c : Char) (a t : List Char) (h : c ∉ a) :
    splitOnChar c (a ++ c :: t) = a :: splitOnChar c t := by
  induction a with
  | nil => simp [splitOnChar]
  | cons x xs ih =>
    have hx : ¬ x = c := fun he => h (he ▸ List.mem_cons_self x xs)
    have hxs : c ∉ xs := fun hm => h (List.mem_cons_of_mem x hm)
    rw [List.cons_append, splitOnChar, if_neg hx, ih hxs]

theorem not_hyphen_of_all_digit (a : List Char) (h : ∀ ch ∈ a, ch.isDigit) :
    ( '-' ) ∉ a := by
  intro hm
  have := h _ hm
  simp at this

/-- C8: the EPIC image-URL builder is a pure function of the item: for
every item whose date begins with a well-formed `YYYY-MM-DD` prefix
(four digits, hyphen, two digits, hyphen, two digits) and whose image
field is the identifier, the produced URL is exactly
`https://epic.gsfc.nasa.gov/archive/natural/YYYY/MM/DD/png/<image>.png`,
with `YYYY`, `MM`, `DD` the hyphen-separated segments of the first ten
characters of the date. -/
theorem buildEpicUrl_spec (y m d rest : List Char)
    (img caption ident : String)
    (hy : y.length = 4) (hm : m.length = 2) (hd : d.length = 2)
    (hyD : ∀ ch ∈ y, ch.isDigit) (hmD : ∀ ch ∈ m, ch.isDigit)
    (hdD : ∀ ch ∈ d, ch.isDigit) :
    buildEpicUrl
        (EpicPageData.mk caption
          (String.mk (y ++ ( '-' ) :: m ++ ( '-' ) :: d ++ rest)) img ident) =
      epicUrlBase ++ y ++ "/".data ++ m ++ "/".data ++ d ++ "/png/".data ++
        img.data ++ ".png".data := by
  have hyH := not_hyphen_of_all_digit y hyD
  have hmH := not_hyphen_of_all_digit m hmD
  have hdH := not_hyphen_of_all_digit d hdD
  rw [buildEpicUrl]
  have hdata :
      (String.mk (y ++ ( '-' ) :: m ++ ( '-' ) :: d ++ rest)).data =
        (y ++ ( '-' ) :: m ++ ( '-' ) :: d) ++ rest := by
    simp [List.append_assoc]
  rw [show (EpicPageData.mk caption
        (String.mk (y ++ ( '-' ) :: m ++ ( '-' ) :: d ++ rest)) img ident).date =
      String.mk (y ++ ( '-' ) :: m ++ ( '-' ) :: d ++ rest) from rfl]
  rw [hdata]
  rw [List.take_left' (by simp [hy, hm, hd])]
  have hsplit :
      splitOnChar ( '-' ) (y ++ ( '-' ) :: m ++ ( '-' ) :: d) =
        [y, m, d] := by
    have h1 : y ++ ( '-' ) :: m ++ ( '-' ) :: d =
        y ++ ( '-' ) :: (m ++ ( '-' ) :: d) := by simp
    rw [h1, splitOnChar_append _ _ _ hyH, splitOnChar_append _ _ _ hmH,
      splitOnChar_of_not_mem _ _ hdH]
  rw [hsplit]
  rfl

/-- Witness for C8 at the date `2024-01-15 12:34:56`. -/
theorem buildEpicUrl_spec_witness :
    ("2024".data.length = 4 ∧ "01".data.length = 2 ∧ "15".data.length = 2 ∧
     (∀ ch ∈ "2024".data, ch.isDigit) ∧ (∀ ch ∈ "01".data, ch.isDigit) ∧
     (∀ ch ∈ "15".data, ch.isDigit)) ∧
    buildEpicUrl
        (EpicPageData.mk "Earth"
          (String.mk ("2024".data ++ ( '-' ) :: "01".data ++
            ( '-' ) :: "15".data ++ " 12:34:56".data)) "epic_1b_20240115" "id1") =
      epicUrlBase ++ "2024".data ++ "/".data ++ "01".data ++ "/".data ++
        "15".data ++ "/png/".data ++ "epic_1b_20240115".data ++ ".png".data :=
  ⟨⟨by decide, by decide, by decide, by decide, by decide, by decide⟩,
   buildEpicUrl_spec "2024".data "01".data "15".data " 12:34:56".data
     "epic_1b_20240115" "Earth" "id1" (by decide) (by decide) (by decide)
     (by decide) (by decide) (by decide)⟩

/-! Helper lemmas characterising the JavaScript `Map` based deduplication. -/

theorem keysOf_mapInsert (m : List (String × HomeData)) (k : String)
    (v : HomeData) :
    keysOf (mapInsert m k v) =
      if k ∈ keysOf m then keysOf m else keysOf m ++ [k] := by
  by_cases hk : k ∈ keysOf m
  · have hany : m.any (fun kv => kv.1 = k) = true := by
      rcases List.mem_map.mp hk with ⟨kv, hkv, hkv1⟩
      exact List.any_eq_true.mpr ⟨kv, hkv, by simp [hkv1]⟩
    rw [mapInsert, if_pos hany, if_pos hk, keysOf, keysOf, List.map_map]
    apply List.map_congr_left
    intro kv _
    by_cases h1 : kv.1 = k <;> simp [h1]
  · have hany : ¬ m.any (fun kv => kv.1 = k) = true := by
      intro hany
      rcases List.any_eq_true.mp hany with ⟨kv, hkv, hp⟩
      exact hk (List.mem_map.mpr ⟨kv, hkv, by simpa using hp⟩)
    rw [mapInsert, if_neg hany, if_neg hk, keysOf, keysOf]
    simp

theorem firstOccKeysAux_congr (l : List HomeData) :
    ∀ (s₁ s₂ : List String), (∀ u, u ∈ s₁ ↔ u ∈ s₂) →
      firstOccKeysAux s₁ l = firstOccKeysAux s₂ l := by
  induction l with
  | nil => intro s₁ s₂ _; rfl
  | cons x xs ih =>
    intro s₁ s₂ h
    by_cases hx : x.url ∈ s₁
    · rw [firstOccKeysAux, firstOccKeysAux, if_pos hx, if_pos ((h _).mp hx)]
      exact ih _ _ h
    · rw [firstOccKeysAux, firstOccKeysAux, if_neg hx,
        if_neg (fun c => hx ((h _).mpr c))]
      congr 1
      apply ih
      intro u
      simp [h u]

theorem keysOf_insertAll (l : List HomeData) :
    ∀ m, keysOf (insertAll m l) = keysOf m ++ firstOccKeysAux (keysOf m) l := by
  induction l with
  | nil => intro m; simp [insertAll, firstOccKeysAux]
  | cons x xs ih =>
    intro m
    rw [show insertAll m (x :: xs) = insertAll (mapInsert m x.url x) xs from rfl,
      ih, keysOf_mapInsert]
    by_cases hx : x.url ∈ keysOf m
    · rw [if_pos hx, firstOccKeysAux, if_pos hx]
    · rw [if_neg hx, firstOccKeysAux, if_neg hx, List.append_assoc,
        List.singleton_append]
      congr 2
      apply firstOccKeysAux_congr
      intro u
      simp [or_comm]

theorem firstOccKeysAux_nodup (l : List HomeData) :
    ∀ seen, (firstOccKeysAux seen l).Nodup ∧
      ∀ u ∈ firstOccKeysAux seen l, u ∉ seen := by
  induction l with
  | nil =>
    intro seen
    exact ⟨List.nodup_nil, fun u hu => absurd hu (List.not_mem_nil u)⟩
  | cons x xs ih =>
    intro seen
    by_cases hx : x.url ∈ seen
    · rw [firstOccKeysAux, if_pos hx]
      exact ih seen
    · rw [firstOccKeysAux, if_neg hx]
      obtain ⟨hnd, hni⟩ := ih (x.url :: seen)
      constructor
      · refine List.nodup_cons.mpr ⟨?_, hnd⟩
        intro hmem
        exact hni _ hmem (List.mem_cons_self _ _)
      · intro u hu
        rcases List.mem_cons.mp hu with h | h
        · exact h ▸ hx
        · exact fun hus => hni u h (List.mem_cons_of_mem _ hus)

theorem insertAll_wf (l : List HomeData) :
    ∀ m, (∀ p ∈ m, p.2.url = p.1) → ∀ p ∈ insertAll m l, p.2.url = p.1 := by
  induction l with
  | nil => intro m hm; exact hm
  | cons x xs ih =>
    intro m hm
    rw [show insertAll m (x :: xs) = insertAll (mapInsert m x.url x) xs from rfl]
    apply ih
    intro p hp
    rw [mapInsert] at hp
    split at hp
    · rcases List.mem_map.mp hp with ⟨kv, hkv, hrep⟩
      by_cases h1 : kv.1 = x.url
      · rw [if_pos h1] at hrep
        rw [← hrep]
      · rw [if_neg h1] at hrep
        exact hrep ▸ hm kv hkv
    · rcases List.mem_append.mp hp with h | h
      · exact hm p h
      · rcases List.mem_singleton.mp h with rfl
        rfl

theorem jsMap_keys_nodup (l : List HomeData) :
    (keysOf (jsMapOfList l)).Nodup := by
  rw [jsMapOfList, keysOf_insertAll]
  have : keysOf ([] : List (String × HomeData)) = [] := rfl
  rw [this, List.nil_append]
  exact (firstOccKeysAux_nodup l []).1

theorem jsMap_wf (l : List HomeData) :
    ∀ p ∈ jsMapOfList l, p.2.url = p.1 := by
  rw [jsMapOfList]
  exact insertAll_wf l [] (fun p hp => absurd hp (List.not_mem_nil p))

theorem find_map_repl (k : String) (v : HomeData) :
    ∀ m : List (String × HomeData), k ∈ keysOf m →
      (m.map (fun kv => if kv.1 = k then (k, v) else kv)).find?
          (fun kv => kv.1 = k) = some (k, v) := by
  intro m
  induction m with
  | nil => intro hk; simp [keysOf] at hk
  | cons kv m ih =>
    intro hk
    by_cases h1 : kv.1 = k
    · simp only [List.map_cons, if_pos h1]
      exact List.find?_cons_of_pos _ (by simp)
    · have hk2 : k ∈ keysOf m := by
        rw [keysOf, List.map_cons] at hk
        rcases List.mem_cons.mp hk with h | h
        · exact absurd h.symm h1
        · exact h
      simp only [List.map_cons, if_neg h1]
      rw [List.find?_cons_of_neg _ (by simp [h1])]
      exact ih hk2

theorem find_map_repl_ne (k k₂ : String) (v : HomeData) (hne : k ≠ k₂) :
    ∀ m : List (String × HomeData),
      (m.map (fun kv => if kv.1 = k then (k, v) else kv)).find?
          (fun kv => kv.1 = k₂) = m.find? (fun kv => kv.1 = k₂) := by
  intro m
  induction m with
  | nil => rfl
  | cons kv m ih =>
    by_cases h1 : kv.1 = k
    · have h2 : ¬ kv.1 = k₂ := fun hc => hne (h1 ▸ hc)
      simp only [List.map_cons, if_pos h1]
      rw [List.find?_cons_of_neg _ (by simpa using hne),
        List.find?_cons_of_neg _ (by simp [h2])]
      exact ih
    · simp only [List.map_cons, if_neg h1]
      by_cases h2 : kv.1 = k₂
      · rw [List.find?_cons_of_pos _ (by simp [h2]),
          List.find?_cons_of_pos _ (by simp [h2])]
      · rw [List.find?_cons_of_neg _ (by simp [h2]),
          List.find?_cons_of_neg _ (by simp [h2])]
        exact ih

theorem lookupKey_mapInsert_self (m : List (String × HomeData)) (k : String)
    (v : HomeData) : lookupKey k (mapInsert m k v) = some v := by
  rw [mapInsert]
  by_cases hany : m.any (fun kv => kv.1 = k) = true
  · rw [if_pos hany, lookupKey]
    have hk : k ∈ keysOf m := by
      rcases List.any_eq_true.mp hany with ⟨kv, hkv, hp⟩
      exact List.mem_map.mpr ⟨kv, hkv, by simpa using hp⟩
    rw [find_map_repl k v m hk]
    rfl
  · rw [if_neg hany, lookupKey, List.find?_append]
    have hnone : m.find? (fun kv => kv.1 = k) = none := by
      rw [List.find?_eq_none]
      intro kv hkv hp
      exact hany (List.any_eq_true.mpr ⟨kv, hkv, hp⟩)
    rw [hnone]
    simp [List.find?]

theorem lookupKey_mapInsert_ne (m : List (String × HomeData)) (k k₂ : String)
    (v : HomeData) (hne : k ≠ k₂) :
    lookupKey k₂ (mapInsert m k v) = lookupKey k₂ m := by
  rw [mapInsert]
  by_cases hany : m.any (fun kv => kv.1 = k) = true
  · rw [if_pos hany, lookupKey, find_map_repl_ne k k₂ v hne m]
    rfl
  · rw [if_neg hany, lookupKey, List.find?_append]
    have hnone : List.find? (fun kv => kv.1 = k₂) [(k, v)] = none := by
      simp [List.find?, hne]
    rw [hnone, Option.or_none]
    rfl

theorem lookupKey_insertAll (l : List HomeData) :
    ∀ (m : List (String × HomeData)) (k : String),
      lookupKey k (insertAll m l) =
        match lastWithUrl k l with
        | some x => some x
        | none => lookupKey k m := by
  induction l with
  | nil => intro m k; rfl
  | cons x xs ih =>
    intro m k
    rw [show insertAll m (x :: xs) = insertAll (mapInsert m x.url x) xs from rfl,
      ih]
    cases hxs : lastWithUrl k xs with
    | some y => rw [lastWithUrl, hxs]
    | none =>
      rw [lastWithUrl, hxs]
      by_cases hx : x.url = k
      · rw [if_pos hx, ← hx]
        exact lookupKey_mapInsert_self m x.url x
      · rw [if_neg hx]
        exact lookupKey_mapInsert_ne m x.url k x hx

theorem lookupKey_of_mem (k : String) (v : HomeData) :
    ∀ m : List (String × HomeData), (keysOf m).Nodup → (k, v) ∈ m →
      lookupKey k m = some v := by
  intro m
  induction m with
  | nil => intro _ hmem; cases hmem
  | cons kv m ih =>
    intro hnd hmem
    rcases List.mem_cons.mp hmem with h | h
    · rw [← h, lookupKey, List.find?_cons_of_pos _ (by simp)]
      rfl
    · have hk : k ∈ keysOf m := List.mem_map.mpr ⟨(k, v), h, rfl⟩
      have h1 : ¬ kv.1 = k := by
        rw [keysOf, List.map_cons, List.nodup_cons] at hnd
        exact fun hc => hnd.1 (hc ▸ hk)
      rw [lookupKey, List.find?_cons_of_neg _ (by simp [h1])]
      have hnd2 : (keysOf m).Nodup := by
        rw [keysOf, List.map_cons, List.nodup_cons] at hnd
        exact hnd.2
      exact ih hnd2 h

theorem dedupByUrl_map_url (l : List HomeData) :
    (dedupByUrl l).map (fun x => x.url) = firstOccKeys l := by
  rw [dedupByUrl, List.map_map]
  have h1 : (jsMapOfList l).map ((fun x : HomeData => x.url) ∘ (fun kv => kv.2)) =
      (jsMapOfList l).map (fun kv => kv.1) :=
    List.map_congr_left (fun p hp => jsMap_wf l p hp)
  rw [h1, show (jsMapOfList l).map (fun kv => kv.1) = keysOf (jsMapOfList l)
    from rfl, jsMapOfList, keysOf_insertAll]
  rfl

theorem dedupByUrl_urls_nodup (l : List HomeData) :
    ((dedupByUrl l).map (fun x => x.url)).Nodup := by
  rw [dedupByUrl_map_url]
  exact (firstOccKeysAux_nodup l []).1

theorem dedupByUrl_last_wins (l : List HomeData) :
    ∀ x ∈ dedupByUrl l, lastWithUrl x.url l = some x := by
  intro x hx
  rcases List.mem_map.mp hx with ⟨p, hp, hpx⟩
  have hwf : p.2.url = p.1 := jsMap_wf l p hp
  have hpm : (p.1, p.2) ∈ jsMapOfList l := hp
  have hlk : lookupKey p.1 (jsMapOfList l) = some p.2 :=
    lookupKey_of_mem p.1 p.2 (jsMapOfList l) (jsMap_keys_nodup l) hpm
  have hins := lookupKey_insertAll l [] p.1
  rw [jsMapOfList] at hlk
  rw [hlk] at hins
  rw [← hpx, hwf]
  cases hlast : lastWithUrl p.1 l with
  | some y =>
    rw [hlast] at hins
    exact hins.symm
  | none =>
    rw [hlast] at hins
    exact absurd hins (by simp [lookupKey, List.find?])

theorem mergedOf_urls_nodup (rand : Nat → Nat) (results : List (List HomeData)) :
    ((mergedOf rand results).map (fun x => x.url)).Nodup := by
  have hperm : (shuffle rand (dedupByUrl results.flatten)).Perm
      (dedupByUrl results.flatten) := shuffle_perm rand _
  have hnd : ((shuffle rand (dedupByUrl results.flatten)).map
      (fun x => x.url)).Nodup :=
    (hperm.map (fun x => x.url)).nodup_iff.mpr (dedupByUrl_urls_nodup _)
  rw [mergedOf, List.map_take]
  exact (List.take_sublist 15 _).nodup hnd

/-- C5 (amended): the Home merge step flattens the per-topic lists in
topic order, deduplicates by URL keeping the position of the first
occurrence of each URL but the record (title) of the LAST occurrence of
that URL — as JavaScript `Map` replaces the value of an existing key while
keeping its insertion position — randomly permutes the deduplicated set,
and truncates it to at most 15 entries.  When two entries from different
topics share a URL but differ in title, the retained entry sits at the
earlier position yet carries the later record. -/
theorem loadRandom_merge_spec (rand : Nat → Nat)
    (results : List (List HomeData)) :
    mergedOf rand results =
      (shuffle rand (dedupByUrl results.flatten)).take 15 ∧
    (mergedOf rand results).length ≤ 15 ∧
    (shuffle rand (dedupByUrl results.flatten)).Perm
      (dedupByUrl results.flatten) ∧
    (dedupByUrl results.flatten).map (fun x => x.url) =
      firstOccKeys results.flatten ∧
    (∀ x ∈ dedupByUrl results.flatten,
      lastWithUrl x.url results.flatten = some x) := by
  refine ⟨rfl, ?_, shuffle_perm rand _, dedupByUrl_map_url _,
    dedupByUrl_last_wins _⟩
  rw [mergedOf]
  have := List.length_take 15 (shuffle rand (dedupByUrl results.flatten))
  omega

/-- Counterexample to C5 as stated: two single-entry topic lists share the
URL `u` with different titles `A` (earlier) and `B` (later); the merge
retains the LATER record `⟨B, u⟩`, not the first occurrence `⟨A, u⟩` that
the claim predicts. -/
theorem loadRandom_first_occurrence_record_false :
    mergedOf (fun _ => 0) [[HomeData.mk "A" "u"], [HomeData.mk "B" "u"]] =
      [HomeData.mk "B" "u"] ∧
    mergedOf (fun _ => 0) [[HomeData.mk "A" "u"], [HomeData.mk "B" "u"]] ≠
      [HomeData.mk "A" "u"] := by
  constructor
  · decide
  · decide

/-- C6 (amended): the merged lists displayed by the Home page after the
initial random-topic load and after a surprise-me re-roll contain no two
entries with the same URL; the free-text search path performs no
deduplication, so its displayed list can repeat a URL. -/
theorem merged_urls_nodup (rand : Nat → Nat) (results : List (List HomeData))
    (s : HomeState) :
    (((loadRandomResolve rand s (Except.ok results)).data).map
        (fun x => x.url)).Nodup ∧
    (((surpriseMeResolve rand s (Except.ok results)).data).map
        (fun x => x.url)).Nodup :=
  ⟨mergedOf_urls_nodup rand results, mergedOf_urls_nodup rand results⟩

/-- Counterexample to C6 as stated: a free-text search whose response
contains two items with the same first-link URL `h1` is displayed with
that URL twice — `handleSearchSubmit` deduplicates nothing. -/
theorem searchSubmit_duplicate_urls :
    ¬ (((handleSearchSubmitResolve (fun _ => 0) (HomeState.mk [] "u" false "")
        (Except.ok (searchImages
          [Item.mk [ItemData.mk (some "A")] [ItemLink.mk (some "h1")],
           Item.mk [ItemData.mk (some "B")] [ItemLink.mk (some "h1")]]))).data.map
        (fun x => x.url)).Nodup) := by
  decide
